import Mathlib

set_option maxRecDepth 100000

/-!
Verification of the tile-world renderer / platformer physics sandbox
(anematode/capstone-project).

Shallow embedding over ℚ of the code in `src/index.js` (the built bundle)
and its module sources: `src/src/bounding_box.js`, `src/src/physics_engine.js`,
`src/src/texture_packer.js`, `src/src/entity_group.js`, `src/unnamed/part_003`
(Vec2), `src/unnamed/part_005` (Tileset).  JS numbers are embedded as exact
rationals; JS `null`/`undefined` results as `Option`.
-/

namespace Capstone

/-! ### Vec2 (src/unnamed/part_003, bundled at src/index.js:406) -/

structure Vec2 where
  x : ℚ
  y : ℚ
deriving DecidableEq, Repr

/-- `Vec2.add` mutates in place in JS; modelled as returning the new value. -/
def Vec2.add (v w : Vec2) : Vec2 := ⟨v.x + w.x, v.y + w.y⟩

/-- `Vec2.transform({x_m, x_b, y_m, y_b})` from src/unnamed/part_003:
`new Vec2(x_m * this.x + x_b, y_m * this.y + y_b)`. -/
def Vec2.transform (v : Vec2) (x_m x_b y_m y_b : ℚ) : Vec2 :=
  ⟨x_m * v.x + x_b, y_m * v.y + y_b⟩

/-- `Math.sign`: 1, -1 or 0.  In `PhysicsEngine.tick` the code computes
`Math.sign(velocityUnit.x)` where `velocityUnit = effectiveVelocity.unit()`;
since `unit()` divides by the (positive) length and returns the zero vector
for zero input, `Math.sign ∘ unit` equals `Math.sign` componentwise, which is
what we embed (the irrational length never reaches any observable value). -/
def qsign (q : ℚ) : ℚ := if 0 < q then 1 else if q < 0 then -1 else 0

/-! ### BoundingBox (src/src/bounding_box.js first/corner variant,
bundled at src/index.js:4757; fields are the x1/y1 corner plus size) -/

structure BoundingBox where
  x1 : ℚ
  y1 : ℚ
  width : ℚ
  height : ℚ
deriving DecidableEq, Repr

def BoundingBox.x2 (b : BoundingBox) : ℚ := b.x1 + b.width

def BoundingBox.y2 (b : BoundingBox) : ℚ := b.y1 + b.height

/-- `setBottomMidpoint(x, y)`: `this.cx = x; this.y1 = y` where the `cx`
setter does `this.x1 = v - this.width / 2`. -/
def BoundingBox.setBottomMidpoint (b : BoundingBox) (x y : ℚ) : BoundingBox :=
  { b with x1 := x - b.width / 2, y1 := y }

def BoundingBox.shift (b : BoundingBox) (x y : ℚ) : BoundingBox :=
  { b with x1 := b.x1 + x, y1 := b.y1 + y }

/-- `intersectWith(bbox)`: clip the bounds; return the overlap box when
`y1 <= y2 && x1 <= x2`, else `null`. -/
def BoundingBox.intersectWith (a b : BoundingBox) : Option BoundingBox :=
  let x1 := max a.x1 b.x1
  let y1 := max a.y1 b.y1
  let x2 := min a.x2 b.x2
  let y2 := min a.y2 b.y2
  if y1 ≤ y2 ∧ x1 ≤ x2 then some ⟨x1, y1, x2 - x1, y2 - y1⟩ else none

def BoundingBox.fromPoints (x1 y1 x2 y2 : ℚ) : BoundingBox :=
  ⟨x1, y1, x2 - x1, y2 - y1⟩

def BoundingBox.union (a b : BoundingBox) : BoundingBox :=
  BoundingBox.fromPoints (min a.x1 b.x1) (min a.y1 b.y1) (max a.x2 b.x2)
    (max a.y2 b.y2)

/-- The `{x_m, x_b, y_m, y_b}` record returned by `getReducedTransform`. -/
structure ReducedTransform where
  x_m : ℚ
  x_b : ℚ
  y_m : ℚ
  y_b : ℚ
deriving DecidableEq, Repr

/-- `BoundingBox.getReducedTransform(box1, box2, flipX, flipY)`
(src/src/bounding_box.js:117-143), with the sequential mutations of the JS
written out as lets. -/
def BoundingBox.getReducedTransform (box1 box2 : BoundingBox)
    (flipX flipY : Bool) : ReducedTransform :=
  let x_m := 1 / box1.width
  let x_b := -box1.x1 / box1.width
  let x_m := if flipX then x_m * (-1) else x_m
  let x_b := if flipX then 1 - x_b else x_b
  let x_m := x_m * box2.width
  let x_b := x_b * box2.width + box2.x1
  let y_m := 1 / box1.height
  let y_b := -box1.y1 / box1.height
  let y_m := if flipY then y_m * (-1) else y_m
  let y_b := if flipY then 1 - y_b else y_b
  let y_m := y_m * box2.height
  let y_b := y_b * box2.height + box2.y1
  ⟨x_m, x_b, y_m, y_b⟩

/-- Applying a reduced transform to a point, as `Vec2.transform` does. -/
def ReducedTransform.apply (t : ReducedTransform) (p : Vec2) : Vec2 :=
  p.transform t.x_m t.x_b t.y_m t.y_b

/-! ### Entity (src/src/entity_group.js:205-229) and the physics engine
(src/src/physics_engine.js:106-216, bundled at src/index.js:5341-5444) -/

/-- An entity: `position` is the feet location; `velocity` is absent (`none`)
for non-physics entities (the JS check is `if (!entity.velocity) return`,
and a present `Vec2` object is always truthy). -/
structure Entity where
  position : Vec2
  velocity : Option Vec2
  onGround : Bool
  hitboxWidth : ℚ
  hitboxHeight : ℚ
deriving DecidableEq, Repr

/-- `Entity.getHitbox` (src/src/entity_group.js:216-219):
`new BoundingBox(0, 0, hitboxWidth, hitboxHeight).setBottomMidpoint(position.x, position.y)`. -/
def Entity.getHitbox (e : Entity) : BoundingBox :=
  (BoundingBox.mk 0 0 e.hitboxWidth e.hitboxHeight).setBottomMidpoint
    e.position.x e.position.y

/-- `game.world.physicalTiles` as seen by the physics engine: a `width`,
a `height` and the `tileData` lookup `tileData[y][x]` (row `y` first). -/
structure TileGrid where
  width : ℤ
  height : ℤ
  tileData : ℤ → ℤ → ℕ

/-- The ascending integer list `[lo, lo+1, ..., hi-1]`, the values taken by a
JS loop `for (let v = lo; v < hi; ++v)`. -/
def intRange (lo hi : ℤ) : List ℤ :=
  (List.range (hi - lo).toNat).map (fun k => lo + k)

/-- The mutable locals of the per-entity tile scan: `effectiveVelocity`,
`nextPosition` and `entity.onGround`. -/
structure CollideState where
  effVel : Vec2
  nextPos : Vec2
  onGround : Bool
deriving DecidableEq, Repr

/-- One iteration of the inner collision loop of `PhysicsEngine.tick`
(src/src/physics_engine.js:181-206) at tile `(x, y)`: if the tile is solid
(`if (tile)`, i.e. code ≠ 0) and `nextHitbox` intersects its unit box, resolve
along the axis of smaller penetration.  `sx`/`sy` are
`Math.sign(velocityUnit.x)` / `Math.sign(velocityUnit.y)`, captured from the
post-gravity effective velocity before the scan; `nextHitbox` is likewise not
recomputed inside the scan. -/
def collideStep (grid : TileGrid) (nextHitbox : BoundingBox) (sx sy : ℚ)
    (st : CollideState) (xy : ℤ × ℤ) : CollideState :=
  if grid.tileData xy.2 xy.1 ≠ 0 then
    match nextHitbox.intersectWith ⟨(xy.1 : ℚ), (xy.2 : ℚ), 1, 1⟩ with
    | some inter =>
      if inter.width < inter.height then
        { st with effVel := ⟨0, st.effVel.y⟩,
                  nextPos := ⟨st.nextPos.x + -inter.width * sx, st.nextPos.y⟩ }
      else
        { effVel := ⟨st.effVel.x * (74/100), 0⟩,
          nextPos := ⟨st.nextPos.x, st.nextPos.y + -inter.height * sy⟩,
          onGround := true }
    | none => st
  else st

/-- The body of `PhysicsEngine.tick` for one physics entity (one with a
`velocity`), faithful to src/src/physics_engine.js:137-213. -/
def tickEntity (grid : TileGrid) (e : Entity) (v : Vec2) : Entity :=
  let effVel := v.add ⟨0, -7/100⟩
  let hitbox := e.getHitbox
  let nextPos := e.position.add effVel
  let nextHitbox := hitbox.shift effVel.x effVel.y
  let bbox := hitbox.union nextHitbox
  let xmin := ⌊bbox.x1⌋
  let xmax := ⌈bbox.x2⌉ + 1
  let ymin := ⌊bbox.y1⌋
  let ymax := ⌈bbox.y2⌉ + 1
  let sx := qsign effVel.x
  let sy := qsign effVel.y
  let pairs := (intRange (max xmin 0) (min grid.width xmax)).flatMap
    (fun x => (intRange (max ymin 0) (min grid.height ymax)).map (fun y => (x, y)))
  let res := pairs.foldl (collideStep grid nextHitbox sx sy)
    ⟨effVel, nextPos, false⟩
  { e with position := res.nextPos, velocity := some res.effVel,
           onGround := res.onGround }

/-- `PhysicsEngine.tick` over the entity list.  The JS loop does
`if (!entity.velocity) return` — a `return` from `tick`, not a `continue` —
so the first non-physics entity ends the whole pass, leaving it and every
later entity untouched. -/
def PhysicsEngine.tick (grid : TileGrid) : List Entity → List Entity
  | [] => []
  | e :: rest =>
    match e.velocity with
    | none => e :: rest
    | some v => tickEntity grid e v :: PhysicsEngine.tick grid rest

/-- The 3×3 all-air grid with a single solid tile at `(x, y) = (1, 2)`
(spec §8 end-to-end scenario). -/
def grid3 : TileGrid :=
  { width := 3, height := 3,
    tileData := fun y x => if x = 1 ∧ y = 2 then 1 else 0 }

/-- The falling test entity: 1×1 hitbox, velocity `(0, 0)`, feet at
`(3/2, y0)`. -/
def dropEntity (y0 : ℚ) : Entity :=
  { position := ⟨3/2, y0⟩, velocity := some ⟨0, 0⟩, onGround := false,
    hitboxWidth := 1, hitboxHeight := 1 }

/-- The rest state on top of the tile at `(1, 2)`: feet at `y = 3`. -/
def restEntity : Entity :=
  { position := ⟨3/2, 3⟩, velocity := some ⟨0, 0⟩, onGround := true,
    hitboxWidth := 1, hitboxHeight := 1 }

/-! ### The fixed-step ticker `createTicker` (src/src/physics_engine.js:7-103,
bundled at src/index.js:5250-5339).

One *scheduling pass* is one invocation of `runTicks`.  `Date.now()` is
modelled as an oracle `clock : ℕ → ℚ` consumed call by call through
`clockIdx`; the opaque `tickCallback` is modelled by counting its invocations
in `count`.  `tickLength` (already converted to ms) is the parameter `L`. -/

structure TickerVars where
  startTime : ℚ
  tickIndex : ℚ
  clockIdx : ℕ
  count : ℕ
  history : List ℚ
deriving DecidableEq, Repr

/-- One `Date.now()` call: yields the next oracle value. -/
def dateNow (clock : ℕ → ℚ) (v : TickerVars) : ℚ × TickerVars :=
  (clock v.clockIdx, { v with clockIdx := v.clockIdx + 1 })

/-- `doTick()`: `tickIndex++; tickCallback()`, plus the 5-entry rolling
tick-time history. -/
def doTick (clock : ℕ → ℚ) (v : TickerVars) : TickerVars :=
  let p1 := dateNow clock v
  let v1 := { p1.2 with tickIndex := p1.2.tickIndex + 1, count := p1.2.count + 1 }
  let p2 := dateNow clock v1
  let hist := p2.2.history ++ [p2.1 - p1.1]
  { p2.2 with history := if 5 < hist.length then hist.drop 1 else hist }

/-- `skipTicks()` (src/src/physics_engine.js:38-43): the hard reset
`startTime = Date.now(); tickIndex = 1`. -/
def skipTicks (clock : ℕ → ℚ) (v : TickerVars) : TickerVars :=
  let p := dateNow clock v
  { p.2 with startTime := p.1, tickIndex := 1 }

/-- The bounded catch-up loop `for (let i = 0; i < maxTicksBeforeLagBack; ++i)`
with `maxTicksBeforeLagBack = 5` (src/src/physics_engine.js:59-70); the fuel
argument counts the remaining iterations.  Note the loop continues after an
in-loop `skipTicks()` (no `break` there). -/
def catchUpLoop (clock : ℕ → ℚ) (L : ℚ) : ℕ → TickerVars → TickerVars
  | 0, v => v
  | n + 1, v =>
    let v1 := doTick clock v
    let p := dateNow clock v1
    let delta := p.2.startTime + L * p.2.tickIndex - p.1
    if delta < L then p.2
    else if 5 * L < delta then catchUpLoop clock L n (skipTicks clock p.2)
    else catchUpLoop clock L n p.2

/-- One pass of `runTicks` (src/src/physics_engine.js:45-77), up to and
including the unconditional trailing `setTimeout` argument's `Date.now()`
call (the timeout value itself schedules the next pass and is not part of
any claim). -/
def runTicks (clock : ℕ → ℚ) (L : ℚ) (isRunning : Bool) (v : TickerVars) :
    TickerVars :=
  if !isRunning then v else
  let p := dateNow clock v
  let currentTime := p.1
  let v1 := p.2
  let expectedTime := v1.startTime + L * v1.tickIndex
  let v2 :=
    if currentTime + L < expectedTime then v1
    else if expectedTime < currentTime - L then
      if expectedTime < currentTime - 5 * L then skipTicks clock v1
      else catchUpLoop clock L 5 v1
    else doTick clock v1
  (dateNow clock v2).2

/-! ### Tileset and TilesetLoader.generateTileset (src/unnamed/part_005,
bundled at src/index.js:560-700) -/

/-- `Math.ceil(Math.log2 n)` for `n ≥ 1`: the least `e` with `n ≤ 2 ^ e`,
computed by a bounded search (`2 ^ n ≥ n` always provides a hit). -/
def ceilLog2 (n : ℕ) : ℕ :=
  (((List.range (n + 1)).find? (fun e => n ≤ 2 ^ e)).getD 0)

/-- The name↔code data of a generated `Tileset`: `tileCodes` is the
`tileCodes` object in insertion order, `codeToTiles` the array starting with
`null` at index 0. -/
structure Tileset where
  tileSize : ℕ
  tileCodes : List (String × ℕ)
  codeToTiles : List (Option String)
  tileCount : ℕ
  widthInTiles : ℕ
  heightInTiles : ℕ
deriving DecidableEq, Repr

/-- The registration loop of `generateTileset`: walk `Object.entries(tileImages)`
(insertion order) with counter `i`, skipping images larger than `tileSize` in
either dimension; each kept image gets code `++i` and is pushed onto
`codeToTiles`. -/
def registerTiles (tileSize : ℕ) :
    List (String × ℕ × ℕ) → ℕ → List (String × ℕ) × List (Option String)
  | [], _ => ([], [])
  | (nm, w, h) :: rest, i =>
    if tileSize < w ∨ tileSize < h then registerTiles tileSize rest i
    else
      let r := registerTiles tileSize rest (i + 1)
      ((nm, i + 1) :: r.1, some nm :: r.2)

/-- `TilesetLoader.generateTileset` (src/unnamed/part_005:37-79), restricted
to the data the code mapping claims observe (the canvas rasterization is
GL-side).  `tileImages` is the name → (width, height) map in insertion
order. -/
def generateTileset (tileSize : ℕ) (tileImages : List (String × ℕ × ℕ)) :
    Tileset :=
  let tileImageCount := tileImages.length
  let exponent := ceilLog2 (tileImageCount + 2)
  let textureHeightInTiles := 2 ^ ((exponent - exponent % 2) / 2)
  let textureWidthInTiles := 2 ^ exponent / textureHeightInTiles
  let r := registerTiles tileSize tileImages 0
  { tileSize := tileSize
    tileCodes := r.1
    codeToTiles := none :: r.2
    tileCount := (none :: r.2).length - 1
    widthInTiles := textureWidthInTiles
    heightInTiles := textureHeightInTiles }

/-- The overloaded argument of `toCode`/`toTile`: a JS number or string. -/
inductive CodeOrTile where
  | code (c : ℤ)
  | tile (s : String)
deriving DecidableEq, Repr

/-- `Tileset.indexOf(tilename)`:
`tilename === "air" ? 0 : this.tileCodes[tilename] ?? -1`. -/
def Tileset.indexOf (t : Tileset) (tilename : String) : ℤ :=
  if tilename = "air" then 0 else
    match t.tileCodes.lookup tilename with
    | some c => (c : ℤ)
    | none => -1

/-- `Tileset.tilenameOf(codeOrTile)` for a numeric code:
`codeOrTile === 0 ? "air" : ((codeOrTile < 0 || codeOrTile >= this.tileCount) ? null : this.codeToTiles[codeOrTile])`. -/
def Tileset.tilenameOf (t : Tileset) (code : ℤ) : Option String :=
  if code = 0 then some "air"
  else if code < 0 ∨ (t.tileCount : ℤ) ≤ code then none
  else t.codeToTiles.getD code.toNat none

/-- `Tileset.toCode`: pass a number through, translate a string. -/
def Tileset.toCode (t : Tileset) : CodeOrTile → ℤ
  | .code c => c
  | .tile s => t.indexOf s

/-- `Tileset.toTile`: pass a string through, translate a number. -/
def Tileset.toTile (t : Tileset) : CodeOrTile → Option String
  | .tile s => some s
  | .code c => t.tilenameOf c

/-! ### TileLayer (src/index.js:4537-4736, the complete bundled form of
src/src/tile_layer.js).  The GL upload and draw calls inside `render` are
events on the out-of-scope GL context; the model keeps the layer's own state:
grid, dirty flag and the encoded world-state texture. -/

structure TilesetGeom where
  tileSize : ℕ
  widthInTiles : ℕ
  heightInTiles : ℕ
deriving DecidableEq, Repr

structure TileLayer where
  width : ℕ
  height : ℕ
  tileData : ℕ → ℕ → ℕ
  tileset : TilesetGeom
  needsUpdate : Bool
  worldTexture : Option (List ℕ)

/-- `tileInBounds(x, y)`: `x >= 0 && x < width && y >= 0 && y < height`
(the `≥ 0` halves are carried by ℕ). -/
def TileLayer.tileInBounds (l : TileLayer) (x y : ℕ) : Bool :=
  decide (x < l.width) && decide (y < l.height)

/-- `tileAt(x, y)`: `this.tileData[y][x]`. -/
def TileLayer.tileAt (l : TileLayer) (x y : ℕ) : ℕ := l.tileData y x

/-- `setTileAt(x, y, v)` (src/index.js:4566-4571): inside bounds, store
`this.tileset.toCode(v)` — the identity on a numeric tile code, which is the
case modelled — and set `needsUpdate`. -/
def TileLayer.setTileAt (l : TileLayer) (x y v : ℕ) : TileLayer :=
  if l.tileInBounds x y then
    { l with tileData := fun y' x' => if y' = y ∧ x' = x then v else l.tileData y' x',
             needsUpdate := true }
  else l

/-- A `Uint8ClampedArray` write of a nonnegative integer. -/
def clampByte (n : ℕ) : ℕ := min n 255

/-- `renderWorldToTexture` (src/index.js:4578-4623): one RGBA texel per grid
cell — atlas column (`tile % widthInTiles`), atlas row
(`floor(tile / widthInTiles)`), the `neighbors` scalar (0, its loop is
commented out), and opacity 255.  Generated tilesets have
`widthInTiles = 2^k ≥ 1`, so the JS `%`/`/` never see 0. -/
def TileLayer.renderWorldToTexture (l : TileLayer) : List ℕ :=
  (List.range l.height).flatMap fun i =>
    (List.range l.width).flatMap fun j =>
      let tile := l.tileData i j
      [clampByte (tile % l.tileset.widthInTiles),
       clampByte (tile / l.tileset.widthInTiles), 0, 255]

/-- `render(renderer)` (src/index.js:4629-4736) as a state transformer on the
layer: re-encode the world texture when dirty, fail silently if there is no
world texture yet (leaving the flag), otherwise upload/draw (GL-side) and
clear `needsUpdate`.  The `!this.tileset` escape can not fire in this model
(the constructor assigns the module-level tileset object). -/
def TileLayer.render (l : TileLayer) : TileLayer :=
  let l1 := if l.needsUpdate then
    { l with worldTexture := some l.renderWorldToTexture } else l
  match l1.worldTexture with
  | none => l1
  | some _ => { l1 with needsUpdate := false }

/-! ### GLResourceManager (src/index.js:78-263).  GL objects
(`gl.createShader/createProgram/createBuffer/createTexture` results and
uniform/attribute locations) are opaque handles, modelled by a fresh-handle
counter; `gl.deleteProgram` calls are logged in `deletedPrograms`. -/

structure ProgramInfo where
  program : ℕ
  uniforms : List (String × ℕ)
  attribs : List (String × ℕ)
deriving DecidableEq, Repr

structure GLResourceManager where
  programs : String → Option ProgramInfo
  buffers : String → Option ℕ
  textures : String → Option ℕ
  nextHandle : ℕ
  deletedPrograms : List ℕ

/-- The freshly constructed manager: three empty caches. -/
def GLResourceManager.init : GLResourceManager :=
  ⟨fun _ => none, fun _ => none, fun _ => none, 0, []⟩

def GLResourceManager.hasProgram (m : GLResourceManager) (name : String) : Bool :=
  (m.programs name).isSome

def GLResourceManager.hasBuffer (m : GLResourceManager) (name : String) : Bool :=
  (m.buffers name).isSome

def GLResourceManager.hasTexture (m : GLResourceManager) (name : String) : Bool :=
  (m.textures name).isSome

def GLResourceManager.getProgram (m : GLResourceManager) (name : String) :
    Option ProgramInfo :=
  m.programs name

/-- `deleteProgram(programName)`: `gl.deleteProgram` the stored GL object and
remove the key. -/
def GLResourceManager.deleteProgram (m : GLResourceManager) (name : String) :
    GLResourceManager :=
  match m.programs name with
  | none => m
  | some p =>
    { m with programs := fun n => if n = name then none else m.programs n,
             deletedPrograms := m.deletedPrograms ++ [p.program] }

/-- `createProgram(programName, vertexShaderSource, fragmentShaderSource,
vertexAttributeNames, uniformNames)` (src/index.js:101-134): delete any
previous program of that name first, compile (two shader objects and one
program object), resolve every uniform and attribute location up front, store
and return the info record. -/
def GLResourceManager.createProgram (m : GLResourceManager) (name : String)
    (vertexShaderSource fragmentShaderSource : String)
    (vertexAttributeNames uniformNames : List String) :
    GLResourceManager × ProgramInfo :=
  let _ := vertexShaderSource
  let _ := fragmentShaderSource
  let m := if m.hasProgram name then m.deleteProgram name else m
  let glProgram := m.nextHandle + 2
  let uniforms := uniformNames.enum.map fun p => (p.2, m.nextHandle + 3 + p.1)
  let attribs := vertexAttributeNames.enum.map fun p =>
    (p.2, m.nextHandle + 3 + uniformNames.length + p.1)
  let info : ProgramInfo := ⟨glProgram, uniforms, attribs⟩
  ({ m with
      programs := fun n => if n = name then some info else m.programs n,
      nextHandle := m.nextHandle + 3 + uniformNames.length
        + vertexAttributeNames.length },
   info)

/-- `onContextLost()` (src/index.js:136-140): drop all three caches, with no
GL-side deletion. -/
def GLResourceManager.onContextLost (m : GLResourceManager) :
    GLResourceManager :=
  { m with programs := fun _ => none, buffers := fun _ => none,
           textures := fun _ => none }

/-- `createBuffer(bufferName)`: return if cached, else `gl.createBuffer` and
store. -/
def GLResourceManager.createBuffer (m : GLResourceManager) (name : String) :
    GLResourceManager :=
  if m.hasBuffer name then m
  else { m with
          buffers := fun n =>
            if n = name then some m.nextHandle else m.buffers n,
          nextHandle := m.nextHandle + 1 }

/-- `getBuffer(bufferName)`: create on miss, then return the cached buffer. -/
def GLResourceManager.getBuffer (m : GLResourceManager) (name : String) :
    Option ℕ × GLResourceManager :=
  let m1 := if m.hasBuffer name then m else m.createBuffer name
  (m1.buffers name, m1)

/-- `createTexture(name)`: `this.textures[name] = gl.createTexture()`. -/
def GLResourceManager.createTexture (m : GLResourceManager) (name : String) :
    ℕ × GLResourceManager :=
  (m.nextHandle,
   { m with
      textures := fun n =>
        if n = name then some m.nextHandle else m.textures n,
      nextHandle := m.nextHandle + 1 })

/-- `getTexture(name)`: `this.textures[name] ?? this.createTexture(name)`. -/
def GLResourceManager.getTexture (m : GLResourceManager) (name : String) :
    ℕ × GLResourceManager :=
  match m.textures name with
  | some t => (t, m)
  | none => m.createTexture name

/-! ### potpack (src/src/texture_packer.js:17-110) -/

/-- An input rectangle `{w, h}`. -/
structure Rect where
  w : ℚ
  h : ℚ
deriving DecidableEq, Repr

/-- A rectangle with the `x`, `y` the packer assigns in place. -/
structure PRect where
  x : ℚ
  y : ℚ
  w : ℚ
  h : ℚ
deriving DecidableEq, Repr

/-- A free space `{x, y, w, h}`; `h = none` is the initial space's
`h: Infinity`. -/
structure Space where
  x : ℚ
  y : ℚ
  w : ℚ
  h : Option ℚ
deriving DecidableEq, Repr

/-- The test `box.w > space.w || box.h > space.h` fails, i.e. the space can
accommodate the box (`box.h > Infinity` is false for every finite `box.h`). -/
def Space.fits (s : Space) (b : Rect) : Bool :=
  decide (b.w ≤ s.w) &&
    (match s.h with
     | none => true
     | some sh => decide (b.h ≤ sh))

/-- The backward scan `for (let i = spaces.length - 1; i >= 0; i--)`:
the fitting space with the largest index, together with that index. -/
def pickSpace (b : Rect) : List Space → Option (ℕ × Space)
  | [] => none
  | s :: rest =>
    match pickSpace b rest with
    | some (i, sp) => some (i + 1, sp)
    | none => if s.fits b then some (0, s) else none

/-- `const last = spaces.pop(); if (i < spaces.length) spaces[i] = last`. -/
def removeSwap (l : List Space) (i : ℕ) : List Space :=
  match l.getLast? with
  | none => []
  | some last => l.dropLast.set i last

/-- `space.y += box.h; space.h -= box.h` (`Infinity - box.h = Infinity`). -/
def Space.shrinkFromTop (s : Space) (b : Rect) : Space :=
  { s with y := s.y + b.h, h := s.h.map (fun sh => sh - b.h) }

/-- The space-list update after placing `b` into the space `s` found at
index `i` (src/src/texture_packer.js:62-100): exact fit removes by swap,
height match shrinks horizontally, width match shrinks vertically, otherwise
split into the shrunk space plus a pushed right remainder. -/
def updateSpaces (spaces : List Space) (i : ℕ) (s : Space) (b : Rect) :
    List Space :=
  if b.w = s.w ∧ s.h = some b.h then removeSwap spaces i
  else if s.h = some b.h then
    spaces.set i { s with x := s.x + b.w, w := s.w - b.w }
  else if b.w = s.w then
    spaces.set i (s.shrinkFromTop b)
  else
    (spaces.set i (s.shrinkFromTop b)) ++
      [⟨s.x + b.w, s.y, s.w - b.w, some b.h⟩]

/-- The fresh spaces replacing the chosen space `s`, in list order: the
`updateSpaces` result is a permutation of `newSpaces b s ++ spaces.eraseIdx i`
(proved below), which is the shape the invariant proofs use. -/
def newSpaces (b : Rect) (s : Space) : List Space :=
  if b.w = s.w ∧ s.h = some b.h then []
  else if s.h = some b.h then [{ s with x := s.x + b.w, w := s.w - b.w }]
  else if b.w = s.w then [s.shrinkFromTop b]
  else [s.shrinkFromTop b, ⟨s.x + b.w, s.y, s.w - b.w, some b.h⟩]

/-- The mutable state of the placement loop: the space list, the boxes placed
so far (with their assigned corners) and the running container extents. -/
structure PackState where
  spaces : List Space
  placed : List PRect
  width : ℚ
  height : ℚ

/-- One iteration of `for (const box of boxes)`
(src/src/texture_packer.js:42-103).  A box fitting no space keeps its
`x`/`y` unassigned in JS and is recorded nowhere here; the invariant proof
shows the case is unreachable (the bottom space is unbounded). -/
def placeBox (st : PackState) (b : Rect) : PackState :=
  match pickSpace b st.spaces with
  | none => st
  | some (i, s) =>
    { spaces := updateSpaces st.spaces i s b
      placed := st.placed ++ [⟨s.x, s.y, b.w, b.h⟩]
      width := max st.width (s.x + b.w)
      height := max st.height (s.y + b.h) }

/-- `Math.ceil(Math.sqrt q)` for `q ≥ 0`: the least natural `n` with
`q ≤ n ^ 2`, located from `Nat.sqrt ⌈q⌉`. -/
def ceilSqrt (q : ℚ) : ℕ :=
  let s := Nat.sqrt ⌈q⌉.toNat
  if q ≤ (s : ℚ) ^ 2 then s else s + 1

/-- The stable height-descending sort `boxes.sort((a, b) => b.h - a.h)`. -/
def sortByHeightDesc (boxes : List Rect) : List Rect :=
  boxes.mergeSort (fun a b => decide (b.h ≤ a.h))

/-- `potpack(boxes)` (src/src/texture_packer.js:18-110): the returned
container record `(w, h, fill)` and the coordinates assigned to the boxes (in
sorted order).  JS computes `fill` as `(area / (width * height)) || 0`; in ℚ,
`area / 0 = 0` matches the reachable `NaN → 0` case exactly (for nonnegative
inputs `area > 0` forces `width * height > 0`, so `Infinity` is
unreachable). -/
def potpack (boxes : List Rect) : (ℚ × ℚ × ℚ) × List PRect :=
  let area := (boxes.map (fun b => b.w * b.h)).sum
  let maxWidth := boxes.foldl (fun m b => max m b.w) 0
  let sorted := sortByHeightDesc boxes
  let startWidth := max ((ceilSqrt (area / (95/100)) : ℚ)) maxWidth
  let st := sorted.foldl placeBox ⟨[⟨0, 0, startWidth, none⟩], [], 0, 0⟩
  ((st.width, st.height, area / (st.width * st.height)), st.placed)

/-- Membership of a plane point in a placed rectangle's half-open span: the
set whose area the overlap claims speak about. -/
def PRect.mem (r : PRect) (p : ℚ × ℚ) : Prop :=
  r.x ≤ p.1 ∧ p.1 < r.x + r.w ∧ r.y ≤ p.2 ∧ p.2 < r.y + r.h

/-- Membership of a plane point in a free space (downward-unbounded when
`h = none`). -/
def Space.mem (s : Space) (p : ℚ × ℚ) : Prop :=
  s.x ≤ p.1 ∧ p.1 < s.x + s.w ∧ s.y ≤ p.2 ∧
    (match s.h with
     | none => True
     | some sh => p.2 < s.y + sh)

/-- Zero-area overlap, arithmetically: on some axis the clipped interval is
empty or degenerate. -/
def zeroOverlap (r₁ r₂ : PRect) : Prop :=
  min (r₁.x + r₁.w) (r₂.x + r₂.w) ≤ max r₁.x r₂.x ∨
  min (r₁.y + r₁.h) (r₂.y + r₂.h) ≤ max r₁.y r₂.y

/-- The overlapping area of two placed rectangles. -/
def overlapArea (r₁ r₂ : PRect) : ℚ :=
  max 0 (min (r₁.x + r₁.w) (r₂.x + r₂.w) - max r₁.x r₂.x) *
    max 0 (min (r₁.y + r₁.h) (r₂.y + r₂.h) - max r₁.y r₂.y)

/-- Pointwise disjointness of two placed rectangles. -/
def PDisj (r₁ r₂ : PRect) : Prop := ∀ p, ¬(r₁.mem p ∧ r₂.mem p)

/-- Pointwise disjointness of two spaces. -/
def SDisj (s₁ s₂ : Space) : Prop := ∀ p, ¬(s₁.mem p ∧ s₂.mem p)

/-- Pointwise disjointness of a space and a placed rectangle. -/
def SPDisj (s : Space) (r : PRect) : Prop := ∀ p, ¬(s.mem p ∧ r.mem p)

/-- The packer invariant, relative to the width `B` of the unbounded bottom
space: everything lives in the first quadrant, placed boxes fit the running
extents, placed boxes and spaces are mutually and pairwise disjoint, and an
unbounded space of width at least `B` survives. -/
structure PackInv (B : ℚ) (st : PackState) : Prop where
  placedNonneg : ∀ r ∈ st.placed, 0 ≤ r.x ∧ 0 ≤ r.y
  placedDims : ∀ r ∈ st.placed, 0 ≤ r.w ∧ 0 ≤ r.h
  placedExtent : ∀ r ∈ st.placed, r.x + r.w ≤ st.width ∧ r.y + r.h ≤ st.height
  placedDisj : st.placed.Pairwise PDisj
  spacesNonneg : ∀ s ∈ st.spaces, 0 ≤ s.x ∧ 0 ≤ s.y
  spacesDisj : st.spaces.Pairwise SDisj
  spacePlacedDisj : ∀ s ∈ st.spaces, ∀ r ∈ st.placed, SPDisj s r
  bottomW : ∀ s ∈ st.spaces, s.h = none → B ≤ s.w
  bottomEx : ∃ s ∈ st.spaces, s.h = none
  widthNonneg : 0 ≤ st.width
  heightNonneg : 0 ≤ st.height

/-! ### Theorems -/

/-- **C7.** For all bounding boxes `A` and `B` with nonzero width and height,
all four flip combinations and every point `p`, applying
`getReducedTransform(A, B, flipX, flipY)` and then
`getReducedTransform(B, A, flipX, flipY)` to `p` returns `p` (exactly, over
exact rational arithmetic — hence in particular within floating tolerance). -/
theorem getReducedTransform_roundTrip (A B : BoundingBox)
    (hAw : A.width ≠ 0) (hAh : A.height ≠ 0)
    (hBw : B.width ≠ 0) (hBh : B.height ≠ 0)
    (flipX flipY : Bool) (p : Vec2) :
    (B.getReducedTransform A flipX flipY).apply
      ((A.getReducedTransform B flipX flipY).apply p) = p := by
  cases flipX <;> cases flipY <;>
    · simp only [BoundingBox.getReducedTransform, ReducedTransform.apply,
        Vec2.transform]
      cases p with
      | mk px py =>
        simp only [Vec2.mk.injEq]
        constructor <;> field_simp <;> ring

/-- Witness for C7 at concrete boxes, flips and a concrete point. -/
theorem getReducedTransform_roundTrip_witness :
    (BoundingBox.width (⟨0, 0, 2, 3⟩ : BoundingBox) ≠ 0) ∧
    ((BoundingBox.getReducedTransform ⟨1, 1, 4, 5⟩ ⟨0, 0, 2, 3⟩ true false).apply
      ((BoundingBox.getReducedTransform ⟨0, 0, 2, 3⟩ ⟨1, 1, 4, 5⟩ true false).apply
        ⟨1/2, 7/3⟩) = ⟨1/2, 7/3⟩) :=
  ⟨by norm_num,
   getReducedTransform_roundTrip ⟨0, 0, 2, 3⟩ ⟨1, 1, 4, 5⟩
     (by norm_num) (by norm_num) (by norm_num) (by norm_num) true false ⟨1/2, 7/3⟩⟩

/-- **C8.** `intersectWith` returns `null` exactly when the boxes are disjoint
with a strict gap on some axis; when the clipped bounds satisfy `x1 ≤ x2` and
`y1 ≤ y2` with equality on one axis (touching edges) it returns a zero-area
box, not `null`; and the union of a box with itself is the original box. -/
theorem intersectWith_null_iff_gap_and_union_self (A B : BoundingBox) :
    (A.intersectWith B = none ↔
      min A.x2 B.x2 < max A.x1 B.x1 ∨ min A.y2 B.y2 < max A.y1 B.y1) ∧
    (max A.x1 B.x1 ≤ min A.x2 B.x2 → max A.y1 B.y1 ≤ min A.y2 B.y2 →
      (max A.x1 B.x1 = min A.x2 B.x2 ∨ max A.y1 B.y1 = min A.y2 B.y2) →
      ∃ C, A.intersectWith B = some C ∧ C.width * C.height = 0) ∧
    A.union A = A := by
  refine ⟨?_, ?_, ?_⟩
  · simp only [BoundingBox.intersectWith, ite_eq_right_iff]
    constructor
    · intro h
      by_contra hc
      push_neg at hc
      exact Option.noConfusion (h ⟨hc.2, hc.1⟩)
    · rintro (h | h) ⟨h1, h2⟩
      · exact absurd h2 (not_le_of_lt h)
      · exact absurd h1 (not_le_of_lt h)
  · intro hx hy heq
    refine ⟨⟨max A.x1 B.x1, max A.y1 B.y1, min A.x2 B.x2 - max A.x1 B.x1,
      min A.y2 B.y2 - max A.y1 B.y1⟩, ?_, ?_⟩
    · simp only [BoundingBox.intersectWith, if_pos (And.intro hy hx)]
    · rcases heq with h | h
      · simp only [h.symm, sub_self, zero_mul]
      · simp only [h.symm, sub_self, mul_zero]
  · simp only [BoundingBox.union, BoundingBox.fromPoints, BoundingBox.x2,
      BoundingBox.y2, min_self, max_self]
    cases A with
    | mk x1 y1 w h =>
      simp only [BoundingBox.mk.injEq]
      refine ⟨trivial, trivial, by ring, by ring⟩

/-- Witness for C8: touching unit boxes produce a zero-area intersection. -/
theorem intersectWith_null_iff_gap_and_union_self_witness :
    max (BoundingBox.x1 ⟨0, 0, 1, 1⟩) (BoundingBox.x1 ⟨1, 0, 1, 1⟩) ≤
      min (BoundingBox.x2 ⟨0, 0, 1, 1⟩) (BoundingBox.x2 ⟨1, 0, 1, 1⟩) ∧
    ∃ C, BoundingBox.intersectWith ⟨0, 0, 1, 1⟩ ⟨1, 0, 1, 1⟩ = some C ∧
      C.width * C.height = 0 :=
  ⟨by norm_num [BoundingBox.x2, max_def, min_def],
   (intersectWith_null_iff_gap_and_union_self ⟨0, 0, 1, 1⟩ ⟨1, 0, 1, 1⟩).2.1
     (by norm_num [BoundingBox.x2, max_def, min_def])
     (by norm_num [BoundingBox.y2, max_def, min_def])
     (Or.inl (by norm_num [BoundingBox.x2, max_def, min_def]))⟩

/-- If `m` iterations reach a fixed point of `f`, every later iteration count
reaches it too. -/
theorem iterate_stabilizes {α : Type} (f : α → α) (x y : α) (m : ℕ)
    (hm : f^[m] x = y) (hy : f y = y) : ∀ n, m ≤ n → f^[n] x = y := by
  intro n hn
  obtain ⟨k, rfl⟩ := Nat.exists_eq_add_of_le hn
  rw [add_comm, Function.iterate_add_apply, hm, Function.iterate_fixed hy]

/-- **C1.** In the 3×3 all-air grid with one solid tile at `(1, 2)`, a 1×1
entity with velocity `(0, 0)` under gravity `-0.07` per tick settles, after
enough `PhysicsEngine.tick`s, at `position.y = 3` (the tile's top surface,
neither embedded nor levitating) with `onGround = true` and stays there.
Covered drops: feet at `y = 4` (the scenario read as position `(1.5, 4)`,
clearance exactly one tile), feet at `y = 3.5` (hitbox centered at
`(1.5, 4)`, clearance half a tile) and feet at `y = 4.2` (clearance greater
than one tile). -/
theorem entity_settles_on_tile :
    (∀ n, 5 ≤ n →
      (PhysicsEngine.tick grid3)^[n] [dropEntity 4] = [restEntity]) ∧
    (∀ n, 4 ≤ n →
      (PhysicsEngine.tick grid3)^[n] [dropEntity (7/2)] = [restEntity]) ∧
    (∀ n, 6 ≤ n →
      (PhysicsEngine.tick grid3)^[n] [dropEntity (21/5)] = [restEntity]) := by
  have hrest : PhysicsEngine.tick grid3 [restEntity] = [restEntity] := by
    with_unfolding_all decide
  refine ⟨iterate_stabilizes _ _ _ 5 ?_ hrest, iterate_stabilizes _ _ _ 4 ?_ hrest,
    iterate_stabilizes _ _ _ 6 ?_ hrest⟩ <;> with_unfolding_all decide

/-- Witness for C1: the settled states at the exact tick counts. -/
theorem entity_settles_on_tile_witness :
    (PhysicsEngine.tick grid3)^[5] [dropEntity 4] = [restEntity] ∧
    (PhysicsEngine.tick grid3)^[4] [dropEntity (7/2)] = [restEntity] ∧
    (PhysicsEngine.tick grid3)^[6] [dropEntity (21/5)] = [restEntity] :=
  ⟨entity_settles_on_tile.1 5 (Nat.le_refl 5),
   entity_settles_on_tile.2.1 4 (Nat.le_refl 4),
   entity_settles_on_tile.2.2 6 (Nat.le_refl 6)⟩

/-- **C3.** For a solid tile whose unit box intersects the entity's next
hitbox, the collision loop body resolves along X when the intersection is
narrower than tall (zero `effectiveVelocity.x`, push `nextPosition.x` back by
the penetration width against the captured velocity sign `sx`), and otherwise
along Y (zero `effectiveVelocity.y`, push `nextPosition.y` back by the
penetration height against `sy`, damp `effectiveVelocity.x` by 0.74 and set
`onGround`). -/
theorem collision_resolution_axis (grid : TileGrid) (nh : BoundingBox)
    (sx sy : ℚ) (st : CollideState) (x y : ℤ)
    (hsolid : grid.tileData y x ≠ 0) (inter : BoundingBox)
    (hi : nh.intersectWith ⟨(x : ℚ), (y : ℚ), 1, 1⟩ = some inter) :
    (inter.width < inter.height →
      collideStep grid nh sx sy st (x, y) =
        ⟨⟨0, st.effVel.y⟩, ⟨st.nextPos.x - inter.width * sx, st.nextPos.y⟩,
          st.onGround⟩) ∧
    (¬ inter.width < inter.height →
      collideStep grid nh sx sy st (x, y) =
        ⟨⟨st.effVel.x * (74/100), 0⟩,
          ⟨st.nextPos.x, st.nextPos.y - inter.height * sy⟩, true⟩) := by
  constructor <;> intro hwh <;>
    simp [collideStep, hsolid, hi, hwh, sub_eq_add_neg, neg_mul]

/-- Witness for C3: the Y-resolution at the scenario's landing tile. -/
theorem collision_resolution_axis_witness :
    grid3.tileData 2 1 ≠ 0 ∧
    BoundingBox.intersectWith ⟨1, 5/2, 1, 1⟩ ⟨(1 : ℚ), (2 : ℚ), 1, 1⟩ =
      some ⟨1, 5/2, 1, 1/2⟩ ∧
    collideStep grid3 ⟨1, 5/2, 1, 1⟩ 0 (-1)
        ⟨⟨0, -7/100⟩, ⟨3/2, 293/100⟩, false⟩ (1, 2) =
      ⟨⟨0 * (74/100), 0⟩, ⟨3/2, 293/100 - 1/2 * (-1)⟩, true⟩ :=
  ⟨by with_unfolding_all decide, by with_unfolding_all decide,
   (collision_resolution_axis grid3 ⟨1, 5/2, 1, 1⟩ 0 (-1)
      ⟨⟨0, -7/100⟩, ⟨3/2, 293/100⟩, false⟩ 1 2
      (by with_unfolding_all decide) ⟨1, 5/2, 1, 1/2⟩
      (by with_unfolding_all decide)).2
    (by with_unfolding_all decide)⟩

/-- **C10.** `PhysicsEngine.tick` hits `return` (not `continue`) at the first
entity without a `velocity`: every entity from that one onward — in
particular every entity appearing later in the list — is left completely
unchanged by the tick, whatever its own state. -/
theorem tick_stops_at_nonphysics_entity (grid : TileGrid)
    (pre post : List Entity) (npe : Entity) (h : npe.velocity = none) :
    ∃ pre', pre'.length = pre.length ∧
      PhysicsEngine.tick grid (pre ++ npe :: post) = pre' ++ npe :: post := by
  induction pre with
  | nil => exact ⟨[], rfl, by simp [PhysicsEngine.tick, h]⟩
  | cons e rest ih =>
    obtain ⟨pre', hlen, heq⟩ := ih
    cases hv : e.velocity with
    | none =>
      exact ⟨e :: rest, rfl, by simp [PhysicsEngine.tick, hv]⟩
    | some v =>
      refine ⟨tickEntity grid e v :: pre', by simp [hlen], ?_⟩
      simp [PhysicsEngine.tick, hv, heq]

/-- Witness for C10: a physics entity placed after a non-physics one is
untouched even while one before it moves. -/
theorem tick_stops_at_nonphysics_entity_witness :
    (Entity.velocity
        ⟨⟨0, 0⟩, none, false, 1, 1⟩ = none) ∧
    ∃ pre', pre'.length = [dropEntity 4].length ∧
      PhysicsEngine.tick grid3
          ([dropEntity 4] ++ (⟨⟨0, 0⟩, none, false, 1, 1⟩ : Entity) ::
            [dropEntity (7/2)]) =
        pre' ++ (⟨⟨0, 0⟩, none, false, 1, 1⟩ : Entity) :: [dropEntity (7/2)] :=
  ⟨rfl,
   tick_stops_at_nonphysics_entity grid3 [dropEntity 4] [dropEntity (7/2)]
     ⟨⟨0, 0⟩, none, false, 1, 1⟩ rfl⟩

theorem doTick_count (clock : ℕ → ℚ) (v : TickerVars) :
    (doTick clock v).count = v.count + 1 := rfl

theorem skipTicks_count (clock : ℕ → ℚ) (v : TickerVars) :
    (skipTicks clock v).count = v.count := rfl

theorem catchUpLoop_count (clock : ℕ → ℚ) (L : ℚ) :
    ∀ n v, (catchUpLoop clock L n v).count ≤ v.count + n := by
  intro n
  induction n with
  | zero => intro v; exact Nat.le_refl _
  | succ n ih =>
    intro v
    simp only [catchUpLoop]
    split
    · simp only [doTick_count, dateNow]
      omega
    · split
      · refine le_trans (ih _) ?_
        simp only [skipTicks_count, dateNow, doTick_count]
        omega
      · refine le_trans (ih _) ?_
        simp only [dateNow, doTick_count]
        omega

/-- **C4.** When a running scheduling pass finds
`expectedTime = startTime + tickLength * tickIndex` more than
`5 * tickLength` behind the current time, it performs the hard reset of
`skipTicks` — `startTime` becomes the current `Date.now()` value and
`tickIndex` becomes 1 — with no tick-callback invocation in that branch;
and any single pass invokes the callback at most
`maxTicksBeforeLagBack = 5` times. -/
theorem runTicks_hard_reset_and_bounded_catchup (clock : ℕ → ℚ) (L : ℚ)
    (hL : 0 < L) (v : TickerVars) :
    (v.startTime + L * v.tickIndex < clock v.clockIdx - 5 * L →
      (runTicks clock L true v).startTime = clock (v.clockIdx + 1) ∧
      (runTicks clock L true v).tickIndex = 1 ∧
      (runTicks clock L true v).count = v.count) ∧
    (∀ running, (runTicks clock L running v).count ≤ v.count + 5) := by
  constructor
  · intro h
    have h1 : ¬ (clock v.clockIdx + L < v.startTime + L * v.tickIndex) := by
      intro hc; linarith
    have h2 : v.startTime + L * v.tickIndex < clock v.clockIdx - L := by
      linarith
    simp only [runTicks, dateNow, skipTicks, Bool.not_true, Bool.false_eq_true,
      if_false, if_neg h1, if_pos h2, if_pos h]
    exact ⟨by trivial, by trivial, by trivial⟩
  · intro running
    cases running with
    | false => simp [runTicks]
    | true =>
      simp only [runTicks, Bool.not_true, Bool.false_eq_true, if_false]
      split
      · simp only [dateNow]; omega
      · split
        · split
          · simp only [dateNow, skipTicks_count]; omega
          · have := catchUpLoop_count clock L 5 ((dateNow clock v).2)
            simp only [dateNow] at *
            omega
        · simp only [dateNow, doTick_count]; omega

/-- Witness for C4 at a concrete clock and state: the pass is 95 ms behind a
1 ms tick length, so it hard-resets without ticking. -/
theorem runTicks_hard_reset_witness :
    ((0 : ℚ) + 1 * 1 < (fun n : ℕ => (100 : ℚ) + n) 0 - 5 * 1) ∧
    (runTicks (fun n : ℕ => (100 : ℚ) + n) 1 true ⟨0, 1, 0, 0, []⟩).startTime
        = 101 ∧
    (runTicks (fun n : ℕ => (100 : ℚ) + n) 1 true ⟨0, 1, 0, 0, []⟩).tickIndex
        = 1 ∧
    (runTicks (fun n : ℕ => (100 : ℚ) + n) 1 true ⟨0, 1, 0, 0, []⟩).count
        ≤ 0 + 5 := by
  have h := runTicks_hard_reset_and_bounded_catchup
    (fun n : ℕ => (100 : ℚ) + n) 1 (by norm_num) ⟨0, 1, 0, 0, []⟩
  have hb : (0 : ℚ) + 1 * 1 < (fun n : ℕ => (100 : ℚ) + n) 0 - 5 * 1 := by
    norm_num
  obtain ⟨hs, ht, hc⟩ := h.1 hb
  exact ⟨hb, by rw [hs]; norm_num, ht, h.2 true⟩

/-- **C6** (code bug).  `toCode("air") = 0` always holds, but the round trip
`toTile(toCode(name)) = name` fails for the registered tile with the highest
code: `tilenameOf` rejects `code >= tileCount` although the last registered
tile has code exactly `tileCount` (and `codeToTiles[tileCount]` does hold its
name).  Evaluated at a tileset built from the single 16×16 image `"stone"`:
`toCode("stone") = 1 = tileCount`, yet `toTile(1) = null` while
`codeToTiles[1] = "stone"`. -/
theorem toTile_toCode_fails_for_last_registered_tile :
    (∀ t : Tileset, t.toCode (.tile "air") = 0) ∧
    (generateTileset 16 [("stone", 16, 16)]).tileCount = 1 ∧
    (generateTileset 16 [("stone", 16, 16)]).toCode (.tile "stone") = 1 ∧
    (generateTileset 16 [("stone", 16, 16)]).codeToTiles.getD 1 none =
      some "stone" ∧
    (generateTileset 16 [("stone", 16, 16)]).toTile
      (.code ((generateTileset 16 [("stone", 16, 16)]).toCode
        (.tile "stone"))) = none := by
  refine ⟨fun t => rfl, ?_, ?_, ?_, ?_⟩ <;> with_unfolding_all decide

/-- **C5.** For an in-bounds cell, `setTileAt` stores the tile code (so
`tileAt` returns it) and sets `needsUpdate`; the next `render` re-encodes the
world-state texture and clears `needsUpdate` before completing. -/
theorem setTileAt_stores_and_dirties_then_render_cleans
    (l : TileLayer) (x y v : ℕ) (hb : l.tileInBounds x y = true) :
    (l.setTileAt x y v).tileAt x y = v ∧
    (l.setTileAt x y v).needsUpdate = true ∧
    ((l.setTileAt x y v).render).needsUpdate = false ∧
    ((l.setTileAt x y v).render).worldTexture =
      some ((l.setTileAt x y v).renderWorldToTexture) := by
  simp [TileLayer.setTileAt, hb, TileLayer.tileAt, TileLayer.render]

/-- Witness for C5 on a concrete 2×2 air layer. -/
theorem setTileAt_stores_and_dirties_then_render_cleans_witness :
    (TileLayer.tileInBounds ⟨2, 2, fun _ _ => 0, ⟨16, 2, 2⟩, false, none⟩ 1 1
      = true) ∧
    ((TileLayer.setTileAt ⟨2, 2, fun _ _ => 0, ⟨16, 2, 2⟩, false, none⟩
        1 1 3).tileAt 1 1 = 3 ∧
      (TileLayer.setTileAt ⟨2, 2, fun _ _ => 0, ⟨16, 2, 2⟩, false, none⟩
        1 1 3).needsUpdate = true ∧
      ((TileLayer.setTileAt ⟨2, 2, fun _ _ => 0, ⟨16, 2, 2⟩, false, none⟩
        1 1 3).render).needsUpdate = false ∧
      ((TileLayer.setTileAt ⟨2, 2, fun _ _ => 0, ⟨16, 2, 2⟩, false, none⟩
        1 1 3).render).worldTexture =
        some ((TileLayer.setTileAt ⟨2, 2, fun _ _ => 0, ⟨16, 2, 2⟩, false, none⟩
          1 1 3).renderWorldToTexture)) :=
  ⟨by decide,
   setTileAt_stores_and_dirties_then_render_cleans
     ⟨2, 2, fun _ _ => 0, ⟨16, 2, 2⟩, false, none⟩ 1 1 3 (by decide)⟩

/-- **C9.** The GL resource cache contract: `getProgram` is `undefined` on a
fresh manager; `getBuffer`/`getTexture` create on first access and return the
identical cached handle with unchanged state on every later access (never
undefined); `createProgram` deletes a previously cached program of the same
name (its GL object is in the delete log) before storing the new one; and
`onContextLost` empties all three caches in one step. -/
theorem glResourceManager_cache_contract :
    (∀ name, GLResourceManager.init.getProgram name = none) ∧
    (∀ m : GLResourceManager, ∀ name,
      (m.buffers name = none →
        (m.getBuffer name).1 = some m.nextHandle ∧
        ((m.getBuffer name).2).buffers name = some m.nextHandle) ∧
      ((m.getBuffer name).1.isSome = true ∧
        ((m.getBuffer name).2).getBuffer name =
          ((m.getBuffer name).1, (m.getBuffer name).2))) ∧
    (∀ m : GLResourceManager, ∀ name,
      (m.textures name = none →
        (m.getTexture name).1 = m.nextHandle ∧
        ((m.getTexture name).2).textures name = some m.nextHandle) ∧
      ((m.getTexture name).2).getTexture name =
        ((m.getTexture name).1, (m.getTexture name).2)) ∧
    (∀ m : GLResourceManager, ∀ name vs fs ans uns, ∀ p : ProgramInfo,
      m.programs name = some p →
        p.program ∈ ((m.createProgram name vs fs ans uns).1).deletedPrograms ∧
        ((m.createProgram name vs fs ans uns).1).programs name =
          some (m.createProgram name vs fs ans uns).2) ∧
    (∀ m : GLResourceManager,
      m.onContextLost.programs = (fun _ => none) ∧
      m.onContextLost.buffers = (fun _ => none) ∧
      m.onContextLost.textures = (fun _ => none)) := by
  refine ⟨fun name => rfl, ?_, ?_, ?_, fun m => ⟨rfl, rfl, rfl⟩⟩
  · intro m name
    constructor
    · intro hmiss
      simp [GLResourceManager.getBuffer, GLResourceManager.hasBuffer,
        GLResourceManager.createBuffer, hmiss]
    · cases hb : m.buffers name with
      | none =>
        constructor <;>
          simp [GLResourceManager.getBuffer, GLResourceManager.hasBuffer,
            GLResourceManager.createBuffer, hb]
      | some b =>
        constructor <;>
          simp [GLResourceManager.getBuffer, GLResourceManager.hasBuffer,
            GLResourceManager.createBuffer, hb]
  · intro m name
    constructor
    · intro hmiss
      simp [GLResourceManager.getTexture, GLResourceManager.createTexture,
        hmiss]
    · cases ht : m.textures name with
      | none =>
        simp [GLResourceManager.getTexture, GLResourceManager.createTexture,
          ht]
      | some t =>
        simp [GLResourceManager.getTexture, ht]
  · intro m name vs fs ans uns p hp
    have hhas : m.hasProgram name = true := by
      simp [GLResourceManager.hasProgram, hp]
    constructor
    · simp [GLResourceManager.createProgram, hhas,
        GLResourceManager.deleteProgram, hp]
    · simp [GLResourceManager.createProgram, hhas,
        GLResourceManager.deleteProgram, hp]

/-- Witness for C9: creating `"TileLayer"` twice on a fresh manager deletes
the first program's GL object. -/
theorem glResourceManager_cache_contract_witness :
    ((GLResourceManager.init.createProgram "TileLayer" "v" "f"
        ["vPosition"] ["u"]).1).programs "TileLayer" =
      some ⟨2, [("u", 3)], [("vPosition", 4)]⟩ ∧
    (2 : ℕ) ∈ ((((GLResourceManager.init.createProgram "TileLayer" "v" "f"
        ["vPosition"] ["u"]).1).createProgram "TileLayer" "v" "f"
        ["vPosition"] ["u"]).1).deletedPrograms := by
  have h1 : ((GLResourceManager.init.createProgram "TileLayer" "v" "f"
      ["vPosition"] ["u"]).1).programs "TileLayer" =
      some ⟨2, [("u", 3)], [("vPosition", 4)]⟩ := by
    with_unfolding_all decide
  refine ⟨h1, ?_⟩
  have h := (glResourceManager_cache_contract.2.2.2.1
    ((GLResourceManager.init.createProgram "TileLayer" "v" "f"
      ["vPosition"] ["u"]).1) "TileLayer" "v" "f" ["vPosition"] ["u"]
    ⟨2, [("u", 3)], [("vPosition", 4)]⟩ h1).1
  exact h

/-! #### potpack: helper lemmas -/

theorem PDisj_symm : Symmetric PDisj := fun _ _ h p hp => h p ⟨hp.2, hp.1⟩

theorem SDisj_symm : Symmetric SDisj := fun _ _ h p hp => h p ⟨hp.2, hp.1⟩

theorem pickSpace_eq_some :
    ∀ (l : List Space) (b : Rect) (i : ℕ) (s : Space),
      pickSpace b l = some (i, s) → l.get? i = some s ∧ s.fits b = true
  | [], _, _, _, h => by simp [pickSpace] at h
  | a :: t, b, i, s, h => by
    simp only [pickSpace] at h
    cases hp : pickSpace b t with
    | some is =>
      rw [hp] at h
      obtain ⟨j, sp⟩ := is
      simp only [Option.some.injEq, Prod.mk.injEq] at h
      obtain ⟨hi, hs⟩ := h
      subst hi; subst hs
      have ih := pickSpace_eq_some t b j sp hp
      exact ⟨by simpa using ih.1, ih.2⟩
    | none =>
      rw [hp] at h
      by_cases hf : a.fits b = true
      · simp only [hf, if_true, Option.some.injEq, Prod.mk.injEq] at h
        obtain ⟨hi, hs⟩ := h
        subst hi; subst hs
        exact ⟨rfl, hf⟩
      · simp [hf] at h

theorem pickSpace_isSome_of_fits :
    ∀ (l : List Space) (b : Rect) (s : Space),
      s ∈ l → s.fits b = true → (pickSpace b l).isSome = true
  | [], _, _, hm, _ => by simp at hm
  | a :: t, b, s, hm, hf => by
    simp only [pickSpace]
    cases hp : pickSpace b t with
    | some is => simp
    | none =>
      rcases List.mem_cons.mp hm with h | h
      · subst h; simp [hf]
      · have := pickSpace_isSome_of_fits t b s h hf
        rw [hp] at this
        simp at this

theorem set_perm_cons_eraseIdx :
    ∀ (l : List Space) (i : ℕ) (s x : Space), l.get? i = some s →
      List.Perm (l.set i x) (x :: l.eraseIdx i)
  | [], i, _, _, h => by simp at h
  | a :: t, 0, s, x, _ => by simp [List.set, List.eraseIdx]
  | a :: t, i + 1, s, x, h => by
    simp only [List.get?_cons_succ] at h
    have ih := set_perm_cons_eraseIdx t i s x h
    have h1 : List.Perm ((a :: t).set (i + 1) x) (a :: x :: t.eraseIdx i) := by
      simpa [List.set_cons_succ] using ih.cons a
    exact h1.trans (List.Perm.swap x a _)

theorem perm_cons_eraseIdx :
    ∀ (l : List Space) (i : ℕ) (s : Space), l.get? i = some s →
      List.Perm l (s :: l.eraseIdx i)
  | [], _, _, h => by simp at h
  | a :: t, 0, s, h => by
    simp only [List.get?_cons_zero, Option.some.injEq] at h
    subst h; simp [List.eraseIdx]
  | a :: t, i + 1, s, h => by
    simp only [List.get?_cons_succ] at h
    have ih := perm_cons_eraseIdx t i s h
    exact (ih.cons a).trans (List.Perm.swap s a _)

theorem removeSwap_perm :
    ∀ (l : List Space) (i : ℕ) (s : Space), l.get? i = some s →
      List.Perm (removeSwap l i) (l.eraseIdx i)
  | [], _, _, h => by simp at h
  | [a], i, s, h => by
    cases i with
    | zero => simp [removeSwap, List.eraseIdx]
    | succ n => simp at h
  | a :: b :: t, 0, s, h => by
    obtain ⟨last, hlast⟩ : ∃ x, (b :: t).getLast? = some x :=
      Option.isSome_iff_exists.mp (List.getLast?_isSome.mpr (by simp))
    have hdecomp : (b :: t).dropLast ++ [last] = b :: t :=
      List.dropLast_append_getLast? last hlast
    have hl : (a :: b :: t).getLast? = some last := by
      rwa [List.getLast?_cons_cons]
    simp only [removeSwap, hl, List.eraseIdx]
    show List.Perm (last :: (b :: t).dropLast) (b :: t)
    conv_rhs => rw [← hdecomp]
    exact (List.perm_append_singleton last _).symm
  | a :: b :: t, i + 1, s, h => by
    simp only [List.get?_cons_succ] at h
    have ih := removeSwap_perm (b :: t) i s h
    obtain ⟨last, hlast⟩ : ∃ x, (b :: t).getLast? = some x :=
      Option.isSome_iff_exists.mp (List.getLast?_isSome.mpr (by simp))
    have hl : (a :: b :: t).getLast? = some last := by
      rwa [List.getLast?_cons_cons]
    simp only [removeSwap, hl, hlast] at ih ⊢
    show List.Perm (a :: ((b :: t).dropLast.set i last))
      (a :: (b :: t).eraseIdx i)
    exact ih.cons a

theorem updateSpaces_perm (spaces : List Space) (i : ℕ) (s : Space) (b : Rect)
    (h : spaces.get? i = some s) :
    List.Perm (updateSpaces spaces i s b)
      (newSpaces b s ++ spaces.eraseIdx i) := by
  unfold updateSpaces newSpaces
  split
  · simpa using removeSwap_perm spaces i s h
  · split
    · simpa using set_perm_cons_eraseIdx spaces i s _ h
    · split
      · simpa using set_perm_cons_eraseIdx spaces i s _ h
      · have h1 := (set_perm_cons_eraseIdx spaces i s (s.shrinkFromTop b) h).append_right
          [(⟨s.x + b.w, s.y, s.w - b.w, some b.h⟩ : Space)]
        refine h1.trans ?_
        show List.Perm
          (s.shrinkFromTop b ::
            (spaces.eraseIdx i ++ [(⟨s.x + b.w, s.y, s.w - b.w, some b.h⟩ : Space)]))
          (s.shrinkFromTop b :: ⟨s.x + b.w, s.y, s.w - b.w, some b.h⟩ ::
            spaces.eraseIdx i)
        exact (List.perm_append_singleton _ _).cons _

theorem Space.fits_iff (s : Space) (b : Rect) :
    s.fits b = true ↔ b.w ≤ s.w ∧ ∀ sh, s.h = some sh → b.h ≤ sh := by
  obtain ⟨sx, sy, sw, sh⟩ := s
  cases sh <;> simp [Space.fits]

/-- The box placed at the top-left corner of a space it fits lies inside that
space. -/
theorem place_mem_sub (s : Space) (b : Rect) (hf : s.fits b = true)
    (p : ℚ × ℚ) (hp : PRect.mem ⟨s.x, s.y, b.w, b.h⟩ p) : s.mem p := by
  rw [Space.fits_iff] at hf
  obtain ⟨sx, sy, sw, sh⟩ := s
  obtain ⟨h1, h2, h3, h4⟩ := hp
  cases sh with
  | none => exact ⟨h1, by simp at h2 ⊢; linarith [hf.1], h3, trivial⟩
  | some v =>
    have hv := hf.2 v rfl
    exact ⟨h1, by simp at h2 ⊢; linarith [hf.1], h3, by simp at h4 ⊢; linarith⟩

/-- Every replacement space is contained in the space it came from. -/
theorem newSpaces_sub (s : Space) (b : Rect) (hf : s.fits b = true)
    (hw : 0 ≤ b.w) (hh : 0 ≤ b.h) :
    ∀ s' ∈ newSpaces b s, ∀ p, s'.mem p → s.mem p := by
  rw [Space.fits_iff] at hf
  obtain ⟨hfw, hfh⟩ := hf
  obtain ⟨sx, sy, sw, sh⟩ := s
  simp only at hfw
  intro s' hs' p hp
  cases sh with
  | none =>
    simp only [newSpaces, Space.shrinkFromTop, Option.map_none', reduceCtorEq,
      and_false, if_false] at hs'
    simp only [Space.mem] at hp ⊢
    split at hs'
    · simp only [List.mem_singleton] at hs'
      subst hs'
      simp only [Space.mem] at hp
      obtain ⟨h1, h2, h3, -⟩ := hp
      exact ⟨by linarith, by linarith, by linarith, trivial⟩
    · simp only [List.mem_cons, List.mem_singleton, List.not_mem_nil, or_false]
        at hs'
      rcases hs' with hs' | hs' <;> subst hs' <;>
        simp only [Space.mem] at hp
      · obtain ⟨h1, h2, h3, -⟩ := hp
        exact ⟨by linarith, by linarith, by linarith, trivial⟩
      · obtain ⟨h1, h2, h3, h4⟩ := hp
        exact ⟨by linarith, by linarith, by linarith, trivial⟩
  | some v =>
    have hv := hfh v rfl
    simp only [newSpaces, Space.shrinkFromTop, Option.map_some'] at hs'
    simp only [Space.mem] at hp ⊢
    split at hs'
    · simp at hs'
    · split at hs'
      · rename_i hc1 hc2
        simp only [Option.some.injEq] at hc2
        simp only [List.mem_singleton] at hs'
        subst hs'
        simp only [Space.mem] at hp
        obtain ⟨h1, h2, h3, h4⟩ := hp
        exact ⟨by linarith, by linarith, by linarith, by linarith⟩
      · split at hs'
        · simp only [List.mem_singleton] at hs'
          subst hs'
          simp only [Space.mem] at hp
          obtain ⟨h1, h2, h3, h4⟩ := hp
          exact ⟨by linarith, by linarith, by linarith, by linarith⟩
        · simp only [List.mem_cons, List.mem_singleton, List.not_mem_nil,
            or_false] at hs'
          rcases hs' with hs' | hs' <;> subst hs' <;>
            simp only [Space.mem] at hp
          · obtain ⟨h1, h2, h3, h4⟩ := hp
            exact ⟨by linarith, by linarith, by linarith, by linarith⟩
          · obtain ⟨h1, h2, h3, h4⟩ := hp
            exact ⟨by linarith, by linarith, by linarith, by linarith⟩

/-- Every replacement space avoids the newly placed box. -/
theorem newSpaces_box_disj (s : Space) (b : Rect) :
    ∀ s' ∈ newSpaces b s, SPDisj s' ⟨s.x, s.y, b.w, b.h⟩ := by
  obtain ⟨sx, sy, sw, sh⟩ := s
  intro s' hs' p ⟨hps, hpb⟩
  obtain ⟨b1, b2, b3, b4⟩ := hpb
  simp only [newSpaces, Space.shrinkFromTop] at hs'
  split at hs'
  · simp at hs'
  · split at hs'
    · simp only [List.mem_singleton] at hs'
      subst hs'
      obtain ⟨h1, _, _, _⟩ := hps
      simp only at h1 b2
      linarith
    · split at hs'
      · simp only [List.mem_singleton] at hs'
        subst hs'
        obtain ⟨_, _, h3, _⟩ := hps
        simp only at h3 b4
        linarith
      · simp only [List.mem_cons, List.mem_singleton, List.not_mem_nil,
          or_false] at hs'
        rcases hs' with hs' | hs' <;> subst hs'
        · obtain ⟨_, _, h3, _⟩ := hps
          simp only at h3 b4
          linarith
        · obtain ⟨h1, _, _, _⟩ := hps
          simp only at h1 b2
          linarith

/-- The replacement spaces are mutually disjoint. -/
theorem newSpaces_pairwise (s : Space) (b : Rect) :
    (newSpaces b s).Pairwise SDisj := by
  obtain ⟨sx, sy, sw, sh⟩ := s
  simp only [newSpaces, Space.shrinkFromTop]
  split
  · exact List.Pairwise.nil
  · split
    · simp
    · split
      · simp
      · refine List.pairwise_cons.mpr ⟨?_, by simp⟩
        intro s' hs' p ⟨hp1, hp2⟩
        simp only [List.mem_singleton] at hs'
        subst hs'
        obtain ⟨_, _, h3, _⟩ := hp1
        obtain ⟨_, _, _, h4⟩ := hp2
        simp only at h3 h4
        linarith

/-- The replacement spaces stay in the first quadrant. -/
theorem newSpaces_nonneg (s : Space) (b : Rect) (hsx : 0 ≤ s.x) (hsy : 0 ≤ s.y)
    (hw : 0 ≤ b.w) (hh : 0 ≤ b.h) :
    ∀ s' ∈ newSpaces b s, 0 ≤ s'.x ∧ 0 ≤ s'.y := by
  obtain ⟨sx, sy, sw, sh⟩ := s
  intro s' hs'
  simp only [newSpaces, Space.shrinkFromTop] at hs'
  split at hs'
  · simp at hs'
  · split at hs'
    · simp only [List.mem_singleton] at hs'
      subst hs'
      exact ⟨by simp only; linarith, by simpa using hsy⟩
    · split at hs'
      · simp only [List.mem_singleton] at hs'
        subst hs'
        exact ⟨by simpa using hsx, by simp only; linarith⟩
      · simp only [List.mem_cons, List.mem_singleton, List.not_mem_nil,
          or_false] at hs'
        rcases hs' with hs' | hs' <;> subst hs'
        · exact ⟨by simpa using hsx, by simp only; linarith⟩
        · exact ⟨by simp only; linarith, by simpa using hsy⟩

/-- Consuming the unbounded bottom space leaves an unbounded space of the
same width. -/
theorem newSpaces_bottom (s : Space) (b : Rect) (hs : s.h = none) :
    ∃ s' ∈ newSpaces b s, s'.h = none ∧ s'.w = s.w := by
  obtain ⟨sx, sy, sw, sh⟩ := s
  simp only at hs
  subst hs
  simp only [newSpaces, Space.shrinkFromTop, reduceCtorEq, and_false, if_false]
  split
  · exact ⟨_, List.mem_singleton_self _, rfl, rfl⟩
  · exact ⟨_, List.mem_cons_self _ _, rfl, rfl⟩

/-- Consuming a bounded space yields only bounded spaces. -/
theorem newSpaces_some (s : Space) (b : Rect) (v : ℚ) (hs : s.h = some v) :
    ∀ s' ∈ newSpaces b s, s'.h ≠ none := by
  obtain ⟨sx, sy, sw, sh⟩ := s
  simp only at hs
  subst hs
  intro s' hs'
  simp only [newSpaces, Space.shrinkFromTop, Option.map_some'] at hs'
  split at hs'
  · simp at hs'
  · split at hs'
    · simp only [List.mem_singleton] at hs'
      subst hs'; simp
    · split at hs'
      · simp only [List.mem_singleton] at hs'
        subst hs'; simp
      · simp only [List.mem_cons, List.mem_singleton, List.not_mem_nil,
          or_false] at hs'
        rcases hs' with hs' | hs' <;> subst hs' <;> simp

/-- An unbounded replacement space of an unbounded space keeps its width. -/
theorem newSpaces_none_w (s : Space) (b : Rect) (hs : s.h = none) :
    ∀ s' ∈ newSpaces b s, s'.h = none → s'.w = s.w := by
  obtain ⟨sx, sy, sw, sh⟩ := s
  simp only at hs
  subst hs
  intro s' hs' hs'none
  simp only [newSpaces, Space.shrinkFromTop, Option.map_none', reduceCtorEq,
    and_false, if_false] at hs'
  split at hs'
  · simp only [List.mem_singleton] at hs'
    subst hs'; rfl
  · simp only [List.mem_cons, List.mem_singleton, List.not_mem_nil, or_false]
      at hs'
    rcases hs' with hs' | hs' <;> subst hs'
    · rfl
    · simp at hs'none

/-- **The placement step preserves the packer invariant** and appends exactly
one placed rectangle carrying the box's dimensions. -/
theorem placeBox_inv (B : ℚ) (st : PackState) (b : Rect)
    (hinv : PackInv B st) (hbw : 0 ≤ b.w) (hbh : 0 ≤ b.h) (hbB : b.w ≤ B) :
    ∃ r : PRect, (placeBox st b).placed = st.placed ++ [r] ∧
      r.w = b.w ∧ r.h = b.h ∧ PackInv B (placeBox st b) := by
  obtain ⟨s₀, hs₀mem, hs₀none⟩ := hinv.bottomEx
  have hfits0 : s₀.fits b = true := by
    rw [Space.fits_iff]
    exact ⟨le_trans hbB (hinv.bottomW s₀ hs₀mem hs₀none),
      fun sh hsh => by rw [hs₀none] at hsh; exact absurd hsh (by simp)⟩
  have hsome := pickSpace_isSome_of_fits st.spaces b s₀ hs₀mem hfits0
  obtain ⟨⟨i, s⟩, hpick⟩ := Option.isSome_iff_exists.mp hsome
  obtain ⟨hget, hfit⟩ := pickSpace_eq_some st.spaces b i s hpick
  have hsmem : s ∈ st.spaces := List.get?_mem hget
  obtain ⟨hsx, hsy⟩ := hinv.spacesNonneg s hsmem
  have hperm := updateSpaces_perm st.spaces i s b hget
  have hsperm := perm_cons_eraseIdx st.spaces i s hget
  have hpair : (s :: st.spaces.eraseIdx i).Pairwise SDisj :=
    (hsperm.pairwise_iff (fun hxy => SDisj_symm hxy)).mp hinv.spacesDisj
  have hsehd : ∀ t ∈ st.spaces.eraseIdx i, SDisj s t :=
    (List.pairwise_cons.mp hpair).1
  have hsetail : (st.spaces.eraseIdx i).Pairwise SDisj :=
    (List.pairwise_cons.mp hpair).2
  have heraseSub : ∀ t ∈ st.spaces.eraseIdx i, t ∈ st.spaces :=
    fun t ht => hsperm.symm.subset (List.mem_cons_of_mem s ht)
  have hupdSub : ∀ t, t ∈ newSpaces b s ++ st.spaces.eraseIdx i →
      t ∈ updateSpaces st.spaces i s b := fun t ht => hperm.symm.subset ht
  have hboxsub : ∀ p, PRect.mem ⟨s.x, s.y, b.w, b.h⟩ p → s.mem p :=
    place_mem_sub s b hfit
  have hNsub := newSpaces_sub s b hfit hbw hbh
  have hNdisjB := newSpaces_box_disj s b
  have hNpair := newSpaces_pairwise s b
  have hNnn := newSpaces_nonneg s b hsx hsy hbw hbh
  refine ⟨⟨s.x, s.y, b.w, b.h⟩, by simp [placeBox, hpick], rfl, rfl, ?_⟩
  have hplaced : (placeBox st b).placed = st.placed ++ [⟨s.x, s.y, b.w, b.h⟩] := by
    simp [placeBox, hpick]
  have hspaces : (placeBox st b).spaces = updateSpaces st.spaces i s b := by
    simp [placeBox, hpick]
  have hwidth : (placeBox st b).width = max st.width (s.x + b.w) := by
    simp [placeBox, hpick]
  have hheight : (placeBox st b).height = max st.height (s.y + b.h) := by
    simp [placeBox, hpick]
  constructor
  · -- placedNonneg
    rw [hplaced]
    intro r hr
    rcases List.mem_append.mp hr with hr | hr
    · exact hinv.placedNonneg r hr
    · simp only [List.mem_singleton] at hr
      subst hr
      exact ⟨hsx, hsy⟩
  · -- placedDims
    rw [hplaced]
    intro r hr
    rcases List.mem_append.mp hr with hr | hr
    · exact hinv.placedDims r hr
    · simp only [List.mem_singleton] at hr
      subst hr
      exact ⟨hbw, hbh⟩
  · -- placedExtent
    rw [hplaced, hwidth, hheight]
    intro r hr
    rcases List.mem_append.mp hr with hr | hr
    · obtain ⟨h1, h2⟩ := hinv.placedExtent r hr
      exact ⟨le_trans h1 (le_max_left _ _), le_trans h2 (le_max_left _ _)⟩
    · simp only [List.mem_singleton] at hr
      subst hr
      exact ⟨le_max_right _ _, le_max_right _ _⟩
  · -- placedDisj
    rw [hplaced]
    refine List.pairwise_append.mpr ⟨hinv.placedDisj, by simp, ?_⟩
    intro r hr r' hr'
    simp only [List.mem_singleton] at hr'
    subst hr'
    intro p ⟨hpr, hpb⟩
    exact hinv.spacePlacedDisj s hsmem r hr p ⟨hboxsub p hpb, hpr⟩
  · -- spacesNonneg
    rw [hspaces]
    intro t ht
    rcases List.mem_append.mp (hperm.subset ht) with h | h
    · exact hNnn t h
    · exact hinv.spacesNonneg t (heraseSub t h)
  · -- spacesDisj
    rw [hspaces]
    refine (hperm.pairwise_iff (fun hxy => SDisj_symm hxy)).mpr ?_
    refine List.pairwise_append.mpr ⟨hNpair, hsetail, ?_⟩
    intro a ha t ht p ⟨hpa, hpt⟩
    exact hsehd t ht p ⟨hNsub a ha p hpa, hpt⟩
  · -- spacePlacedDisj
    rw [hspaces, hplaced]
    intro t ht r hr
    rcases List.mem_append.mp (hperm.subset ht) with hTn | hTe <;>
      rcases List.mem_append.mp hr with hRo | hRb
    · intro p ⟨hpt, hpr⟩
      exact hinv.spacePlacedDisj s hsmem r hRo p ⟨hNsub t hTn p hpt, hpr⟩
    · simp only [List.mem_singleton] at hRb
      subst hRb
      exact hNdisjB t hTn
    · exact hinv.spacePlacedDisj t (heraseSub t hTe) r hRo
    · simp only [List.mem_singleton] at hRb
      subst hRb
      intro p ⟨hpt, hpb⟩
      exact hsehd t hTe p ⟨hboxsub p hpb, hpt⟩
  · -- bottomW
    rw [hspaces]
    intro t ht htnone
    rcases List.mem_append.mp (hperm.subset ht) with h | h
    · cases hsh : s.h with
      | none =>
        rw [newSpaces_none_w s b hsh t h htnone]
        exact hinv.bottomW s hsmem hsh
      | some v => exact absurd htnone (newSpaces_some s b v hsh t h)
    · exact hinv.bottomW t (heraseSub t h) htnone
  · -- bottomEx
    rw [hspaces]
    cases hsh : s.h with
    | none =>
      obtain ⟨t, htmem, htnone, -⟩ := newSpaces_bottom s b hsh
      exact ⟨t, hupdSub t (List.mem_append_left _ htmem), htnone⟩
    | some v =>
      have hs₀ne : s₀ ≠ s := by
        intro e; rw [e, hsh] at hs₀none; exact Option.noConfusion hs₀none
      have : s₀ ∈ st.spaces.eraseIdx i := by
        rcases List.mem_cons.mp (hsperm.subset hs₀mem) with h | h
        · exact absurd h hs₀ne
        · exact h
      exact ⟨s₀, hupdSub s₀ (List.mem_append_right _ this), hs₀none⟩
  · -- widthNonneg
    rw [hwidth]
    exact le_trans hinv.widthNonneg (le_max_left _ _)
  · -- heightNonneg
    rw [hheight]
    exact le_trans hinv.heightNonneg (le_max_left _ _)

theorem foldl_placeBox (B : ℚ) :
    ∀ (l : List Rect) (st : PackState), PackInv B st →
      (∀ b ∈ l, 0 ≤ b.w ∧ 0 ≤ b.h ∧ b.w ≤ B) →
      PackInv B (l.foldl placeBox st) ∧
      (l.foldl placeBox st).placed.map (fun r => (r.w, r.h)) =
        st.placed.map (fun r => (r.w, r.h)) ++ l.map (fun b => (b.w, b.h))
  | [], st, hinv, _ => ⟨hinv, by simp⟩
  | b :: rest, st, hinv, hl => by
    obtain ⟨hw, hh, hB⟩ := hl b (List.mem_cons_self b rest)
    obtain ⟨r, hr, hrw, hrh, hinv'⟩ := placeBox_inv B st b hinv hw hh hB
    have ih := foldl_placeBox B rest (placeBox st b) hinv'
      (fun b' hb' => hl b' (List.mem_cons_of_mem b hb'))
    refine ⟨by simpa using ih.1, ?_⟩
    simp only [List.foldl_cons, List.map_cons]
    rw [ih.2, hr]
    simp [hrw, hrh]

theorem packInv_init (W0 : ℚ) :
    PackInv W0 ⟨[⟨0, 0, W0, none⟩], [], 0, 0⟩ := by
  refine ⟨?_, ?_, ?_, ?_, ?_, ?_, ?_, ?_, ?_, ?_, ?_⟩ <;>
    simp [SPDisj, Space.mem]

theorem zeroOverlap_symm : Symmetric zeroOverlap := by
  intro a b h
  rcases h with h | h
  · exact Or.inl (by rw [min_comm, max_comm]; exact h)
  · exact Or.inr (by rw [min_comm, max_comm]; exact h)

theorem zeroOverlap_of_PDisj (r₁ r₂ : PRect) (h : PDisj r₁ r₂) :
    zeroOverlap r₁ r₂ := by
  by_contra hc
  unfold zeroOverlap at hc
  push_neg at hc
  obtain ⟨hx, hy⟩ := hc
  refine h (max r₁.x r₂.x, max r₁.y r₂.y)
    ⟨⟨le_max_left _ _, ?_, le_max_left _ _, ?_⟩,
     ⟨le_max_right _ _, ?_, le_max_right _ _, ?_⟩⟩
  · exact lt_of_lt_of_le hx (min_le_left _ _)
  · exact lt_of_lt_of_le hy (min_le_left _ _)
  · exact lt_of_lt_of_le hx (min_le_right _ _)
  · exact lt_of_lt_of_le hy (min_le_right _ _)

theorem overlapArea_eq_zero_of_zeroOverlap (r₁ r₂ : PRect)
    (h : zeroOverlap r₁ r₂) : overlapArea r₁ r₂ = 0 := by
  unfold overlapArea
  rcases h with h | h
  · rw [max_eq_left (sub_nonpos.mpr h), zero_mul]
  · rw [max_eq_left (sub_nonpos.mpr h), mul_zero]

theorem list_map_sum {α : Type} (l : List α) (f : α → ℚ) :
    (l.map f).sum = ∑ i : Fin l.length, f (l.get i) := by
  conv_lhs => rw [← List.ofFn_get l]
  rw [List.map_ofFn, List.sum_ofFn]
  rfl

/-- Pairwise zero-overlap rectangles inside the container `[0, W] × [0, H]`
have total area at most `W * H` (by Lebesgue-measure additivity in ℝ²). -/
theorem sum_area_le_container (placed : List PRect) (W H : ℚ)
    (hdims : ∀ r ∈ placed, 0 ≤ r.w ∧ 0 ≤ r.h)
    (hnn : ∀ r ∈ placed, 0 ≤ r.x ∧ 0 ≤ r.y)
    (hext : ∀ r ∈ placed, r.x + r.w ≤ W ∧ r.y + r.h ≤ H)
    (hdisj : placed.Pairwise zeroOverlap)
    (hW : 0 ≤ W) (hH : 0 ≤ H) :
    (placed.map (fun r => r.w * r.h)).sum ≤ W * H := by
  classical
  set R : Fin placed.length → Set (ℝ × ℝ) := fun i =>
    Set.Ico ((placed.get i).x : ℝ) (((placed.get i).x : ℝ) + ((placed.get i).w : ℝ)) ×ˢ
    Set.Ico ((placed.get i).y : ℝ) (((placed.get i).y : ℝ) + ((placed.get i).h : ℝ))
    with hR
  have hmeas : ∀ i, MeasurableSet (R i) :=
    fun i => measurableSet_Ico.prod measurableSet_Ico
  have hpd : ((Finset.univ : Finset (Fin placed.length)) : Set (Fin placed.length)).PairwiseDisjoint R := by
    intro i _ j _ hij
    have hzo : zeroOverlap (placed.get i) (placed.get j) := by
      rcases lt_or_gt_of_ne hij with h | h
      · exact List.pairwise_iff_get.mp hdisj i j h
      · exact zeroOverlap_symm (List.pairwise_iff_get.mp hdisj j i h)
    rcases hzo with h | h
    · refine Set.Disjoint.set_prod_left ?_ _ _
      rw [Set.Ico_disjoint_Ico]
      have := h
      rw [show ((placed.get i).x : ℝ) + ((placed.get i).w : ℝ) =
        (((placed.get i).x + (placed.get i).w : ℚ) : ℝ) by push_cast; ring]
      rw [show ((placed.get j).x : ℝ) + ((placed.get j).w : ℝ) =
        (((placed.get j).x + (placed.get j).w : ℚ) : ℝ) by push_cast; ring]
      rw [← Rat.cast_min, ← Rat.cast_max]
      exact_mod_cast this
    · refine Set.Disjoint.set_prod_right ?_ _ _
      rw [Set.Ico_disjoint_Ico]
      have := h
      rw [show ((placed.get i).y : ℝ) + ((placed.get i).h : ℝ) =
        (((placed.get i).y + (placed.get i).h : ℚ) : ℝ) by push_cast; ring]
      rw [show ((placed.get j).y : ℝ) + ((placed.get j).h : ℝ) =
        (((placed.get j).y + (placed.get j).h : ℚ) : ℝ) by push_cast; ring]
      rw [← Rat.cast_min, ← Rat.cast_max]
      exact_mod_cast this
  have hvol : ∀ i, MeasureTheory.volume (R i) =
      ENNReal.ofReal ((placed.get i).w : ℝ) *
        ENNReal.ofReal ((placed.get i).h : ℝ) := by
    intro i
    rw [hR]
    simp only
    rw [MeasureTheory.Measure.volume_eq_prod, MeasureTheory.Measure.prod_prod,
      Real.volume_Ico, Real.volume_Ico]
    congr 1 <;> ring_nf
  have hsub : ∀ i, R i ⊆ Set.Ico (0 : ℝ) (W : ℝ) ×ˢ Set.Ico (0 : ℝ) (H : ℝ) := by
    intro i
    obtain ⟨hx, hy⟩ := hnn _ (placed.get_mem i.1 i.2)
    obtain ⟨hxe, hye⟩ := hext _ (placed.get_mem i.1 i.2)
    rw [hR]
    apply Set.prod_mono <;> apply Set.Ico_subset_Ico
    · exact_mod_cast hx
    · exact_mod_cast by exact_mod_cast hxe
    · exact_mod_cast hy
    · exact_mod_cast by exact_mod_cast hye
  have hunion := MeasureTheory.measure_biUnion_finset hpd
    (fun i _ => hmeas i) (μ := MeasureTheory.volume)
  have hcont : MeasureTheory.volume
      (⋃ i ∈ (Finset.univ : Finset (Fin placed.length)), R i) ≤
      ENNReal.ofReal (W : ℝ) * ENNReal.ofReal (H : ℝ) := by
    refine le_trans (MeasureTheory.measure_mono
      (Set.iUnion₂_subset fun i _ => hsub i)) ?_
    rw [MeasureTheory.Measure.volume_eq_prod, MeasureTheory.Measure.prod_prod,
      Real.volume_Ico, Real.volume_Ico, sub_zero, sub_zero]
  have key : ∑ i : Fin placed.length,
      ENNReal.ofReal (((placed.get i).w : ℝ) * ((placed.get i).h : ℝ)) ≤
      ENNReal.ofReal ((W : ℝ) * (H : ℝ)) := by
    have h1 : ∀ i : Fin placed.length,
        ENNReal.ofReal (((placed.get i).w : ℝ) * ((placed.get i).h : ℝ)) =
        MeasureTheory.volume (R i) := by
      intro i
      rw [hvol i, ENNReal.ofReal_mul]
      exact_mod_cast (hdims _ (placed.get_mem i.1 i.2)).1
    calc ∑ i, ENNReal.ofReal (((placed.get i).w : ℝ) * ((placed.get i).h : ℝ))
        = ∑ i, MeasureTheory.volume (R i) := Finset.sum_congr rfl (fun i _ => h1 i)
      _ = MeasureTheory.volume (⋃ i ∈ Finset.univ, R i) := hunion.symm
      _ ≤ ENNReal.ofReal (W : ℝ) * ENNReal.ofReal (H : ℝ) := hcont
      _ = ENNReal.ofReal ((W : ℝ) * (H : ℝ)) :=
          (ENNReal.ofReal_mul (by exact_mod_cast hW)).symm
  have key2 : ∑ i : Fin placed.length,
      ((placed.get i).w : ℝ) * ((placed.get i).h : ℝ) ≤ (W : ℝ) * (H : ℝ) := by
    rw [← ENNReal.ofReal_le_ofReal_iff
      (mul_nonneg (by exact_mod_cast hW) (by exact_mod_cast hH)),
      ENNReal.ofReal_sum_of_nonneg]
    · exact key
    · intro i _
      exact mul_nonneg (by exact_mod_cast (hdims _ (placed.get_mem i.1 i.2)).1)
        (by exact_mod_cast (hdims _ (placed.get_mem i.1 i.2)).2)
  rw [list_map_sum]
  have : ((∑ i : Fin placed.length,
      (placed.get i).w * (placed.get i).h : ℚ) : ℝ) ≤ ((W * H : ℚ) : ℝ) := by
    push_cast
    exact key2
  exact_mod_cast this

theorem le_foldl_max :
    ∀ (l : List Rect) (init : ℚ),
      init ≤ l.foldl (fun m b => max m b.w) init ∧
      ∀ b ∈ l, b.w ≤ l.foldl (fun m b => max m b.w) init
  | [], init => ⟨le_refl _, by simp⟩
  | b :: t, init => by
    have ih := le_foldl_max t (max init b.w)
    refine ⟨le_trans (le_max_left _ _) ih.1, ?_⟩
    intro b' hb'
    rcases List.mem_cons.mp hb' with h | h
    · subst h
      exact le_trans (le_max_right init b'.w) ih.1
    · exact ih.2 b' h

/-- The placement fold, packaged: pairwise zero overlap, container covers
every input dimension, and (for nonempty positive input) positive area
bounded by the container area. -/
theorem potpack_core (boxes sorted : List Rect) (sw : ℚ)
    (hperm : List.Perm sorted boxes)
    (hsw : ∀ b ∈ boxes, b.w ≤ sw)
    (hpos : ∀ b ∈ boxes, 0 < b.w ∧ 0 < b.h) :
    (sorted.foldl placeBox ⟨[⟨0, 0, sw, none⟩], [], 0, 0⟩).placed.Pairwise
      (fun r₁ r₂ => overlapArea r₁ r₂ = 0) ∧
    (∀ b ∈ boxes,
      b.w ≤ (sorted.foldl placeBox ⟨[⟨0, 0, sw, none⟩], [], 0, 0⟩).width ∧
      b.h ≤ (sorted.foldl placeBox ⟨[⟨0, 0, sw, none⟩], [], 0, 0⟩).height) ∧
    (boxes ≠ [] →
      0 < (boxes.map (fun b => b.w * b.h)).sum ∧
      (boxes.map (fun b => b.w * b.h)).sum ≤
        (sorted.foldl placeBox ⟨[⟨0, 0, sw, none⟩], [], 0, 0⟩).width *
          (sorted.foldl placeBox ⟨[⟨0, 0, sw, none⟩], [], 0, 0⟩).height ∧
      0 < (sorted.foldl placeBox ⟨[⟨0, 0, sw, none⟩], [], 0, 0⟩).width *
        (sorted.foldl placeBox ⟨[⟨0, 0, sw, none⟩], [], 0, 0⟩).height) := by
  set st := sorted.foldl placeBox ⟨[⟨0, 0, sw, none⟩], [], 0, 0⟩ with hst
  have hle : ∀ b ∈ sorted, 0 ≤ b.w ∧ 0 ≤ b.h ∧ b.w ≤ sw := by
    intro b hb
    obtain ⟨h1, h2⟩ := hpos b (hperm.subset hb)
    exact ⟨le_of_lt h1, le_of_lt h2, hsw b (hperm.subset hb)⟩
  obtain ⟨hinv, hmap⟩ := foldl_placeBox sw sorted _ (packInv_init sw) hle
  rw [← hst] at hinv hmap
  simp only [List.map_nil, List.nil_append] at hmap
  have hzo : st.placed.Pairwise zeroOverlap :=
    hinv.placedDisj.imp (fun h => zeroOverlap_of_PDisj _ _ h)
  have hdimsMem : ∀ b ∈ boxes, ∃ r ∈ st.placed, r.w = b.w ∧ r.h = b.h := by
    intro b hb
    have h1 : (b.w, b.h) ∈ sorted.map (fun b => (b.w, b.h)) :=
      List.mem_map.mpr ⟨b, (hperm.mem_iff).mpr hb, rfl⟩
    rw [← hmap] at h1
    obtain ⟨r, hr, hre⟩ := List.mem_map.mp h1
    exact ⟨r, hr, congrArg Prod.fst hre, congrArg Prod.snd hre⟩
  have hareaEq : (st.placed.map (fun r => r.w * r.h)).sum =
      (boxes.map (fun b => b.w * b.h)).sum := by
    have h1 := congrArg
      (fun l : List (ℚ × ℚ) => (l.map (fun p => p.1 * p.2)).sum) hmap
    simp only [List.map_map] at h1
    calc (st.placed.map (fun r => r.w * r.h)).sum
        = (sorted.map (fun b => b.w * b.h)).sum := h1
      _ = (boxes.map (fun b => b.w * b.h)).sum :=
          (hperm.map (fun b => b.w * b.h)).sum_eq
  refine ⟨hzo.imp (fun h => overlapArea_eq_zero_of_zeroOverlap _ _ h), ?_, ?_⟩
  · intro b hb
    obtain ⟨r, hr, hrw, hrh⟩ := hdimsMem b hb
    obtain ⟨hx, hy⟩ := hinv.placedNonneg r hr
    obtain ⟨he1, he2⟩ := hinv.placedExtent r hr
    exact ⟨by linarith, by linarith⟩
  · intro hne
    have hpos' : ∀ a ∈ boxes.map (fun b => b.w * b.h), 0 < a := by
      intro a ha
      obtain ⟨b, hb, he⟩ := List.mem_map.mp ha
      obtain ⟨h1, h2⟩ := hpos b hb
      exact he ▸ mul_pos h1 h2
    have hareaPos : 0 < (boxes.map (fun b => b.w * b.h)).sum :=
      List.sum_pos _ hpos' (by simpa using hne)
    have hWHpos : 0 < st.width * st.height := by
      obtain ⟨b₀, hb₀⟩ := List.exists_mem_of_ne_nil boxes hne
      obtain ⟨r, hr, hrw, hrh⟩ := hdimsMem b₀ hb₀
      obtain ⟨hx, hy⟩ := hinv.placedNonneg r hr
      obtain ⟨he1, he2⟩ := hinv.placedExtent r hr
      obtain ⟨h1, h2⟩ := hpos b₀ hb₀
      have : 0 < st.width := by linarith
      have : 0 < st.height := by linarith
      positivity
    refine ⟨hareaPos, ?_, hWHpos⟩
    rw [← hareaEq]
    exact sum_area_le_container st.placed st.width st.height
      hinv.placedDims hinv.placedNonneg hinv.placedExtent hzo
      hinv.widthNonneg hinv.heightNonneg

/-- **C2.** For every list of input rectangles (with positive dimensions, as
images have): the assigned positions give every pair of placed rectangles
zero overlapping area; the returned container's width and height each cover
every input rectangle's corresponding dimension; the returned `fill` lies in
`(0, 1]` when the list is nonempty; and the empty list returns
`{w: 0, h: 0, fill: 0}` with the division guarded. -/
theorem potpack_spec (boxes : List Rect)
    (hpos : ∀ b ∈ boxes, 0 < b.w ∧ 0 < b.h) :
    ((potpack boxes).2.Pairwise fun r₁ r₂ => overlapArea r₁ r₂ = 0) ∧
    (∀ b ∈ boxes, b.w ≤ (potpack boxes).1.1 ∧ b.h ≤ (potpack boxes).1.2.1) ∧
    (boxes ≠ [] → 0 < (potpack boxes).1.2.2 ∧ (potpack boxes).1.2.2 ≤ 1) ∧
    (boxes = [] → (potpack boxes).1 = (0, 0, 0)) := by
  rcases eq_or_ne boxes [] with he | hne
  · subst he
    refine ⟨?_, ?_, ?_, ?_⟩
    · with_unfolding_all decide
    · simp
    · intro h; exact absurd rfl h
    · intro _; with_unfolding_all decide
  · simp only [potpack]
    set A := (boxes.map (fun b => b.w * b.h)).sum with hA
    set SW := max ((ceilSqrt (A / (95/100)) : ℚ))
      (boxes.foldl (fun m b => max m b.w) 0) with hSW
    set ST := (sortByHeightDesc boxes).foldl placeBox
      ⟨[⟨0, 0, SW, none⟩], [], 0, 0⟩ with hST
    have hperm : List.Perm (sortByHeightDesc boxes) boxes := by
      unfold sortByHeightDesc
      exact List.mergeSort_perm boxes _
    have hsw : ∀ b ∈ boxes, b.w ≤ SW := by
      rw [hSW]
      intro b hb
      exact le_trans ((le_foldl_max boxes 0).2 b hb) (le_max_right _ _)
    have hcore := potpack_core boxes (sortByHeightDesc boxes) SW hperm hsw hpos
    rw [← hST] at hcore
    rw [← hA] at hcore
    obtain ⟨hPW, hDims, hFill⟩ := hcore
    obtain ⟨hareaPos, hareaLe, hWHpos⟩ := hFill hne
    refine ⟨hPW, hDims, ?_, ?_⟩
    · intro _
      exact ⟨div_pos hareaPos hWHpos, (div_le_one hWHpos).mpr hareaLe⟩
    · intro h; exact absurd h hne

set_option maxHeartbeats 2000000 in
/-- Witness for C2 at the spec's three-image example (16×16, 8×8, 4×4): the
packing is overlap-free, covers every input, and `fill = 7/8 ∈ (0, 1]`. -/
theorem potpack_spec_witness :
    (∀ b ∈ ([⟨16, 16⟩, ⟨8, 8⟩, ⟨4, 4⟩] : List Rect), 0 < b.w ∧ 0 < b.h) ∧
    ((potpack [⟨16, 16⟩, ⟨8, 8⟩, ⟨4, 4⟩]).2.Pairwise
      fun r₁ r₂ => overlapArea r₁ r₂ = 0) ∧
    (0 < (potpack [⟨16, 16⟩, ⟨8, 8⟩, ⟨4, 4⟩]).1.2.2 ∧
      (potpack [⟨16, 16⟩, ⟨8, 8⟩, ⟨4, 4⟩]).1.2.2 ≤ 1) ∧
    (potpack [⟨16, 16⟩, ⟨8, 8⟩, ⟨4, 4⟩]).1.2.2 = 7/8 :=
  ⟨by with_unfolding_all decide,
   (potpack_spec [⟨16, 16⟩, ⟨8, 8⟩, ⟨4, 4⟩] (by with_unfolding_all decide)).1,
   (potpack_spec [⟨16, 16⟩, ⟨8, 8⟩, ⟨4, 4⟩]
      (by with_unfolding_all decide)).2.2.1 (by with_unfolding_all decide),
   by with_unfolding_all decide⟩

end Capstone
